import Mathlib

/-!
# ChildProcessSubprocPoll

A shallow embedding of `src/cpp/core/system/ChildProcessSubprocPoll.cpp`:
the debounce state machine that remembers whether a child process has had
recent output and whether it has subprocesses.

Modelling decisions

* A `boost::posix_time::ptime` that holds a real time is its tick count, an
  integer number of microseconds (the resolution of `microsec_clock`). The
  only special value the class stores is `not_a_date_time`; a field that may
  hold it is an `Option Time`, `none` standing for `not_a_date_time`. Tick
  counts are unbounded integers: clock readings are far from the limits of
  the 64 bit representation.
* `now()` reads the system clock. The reading is an argument of `poll`.
* `subProcCheck_` is a `boost::function<bool (PidType)>`, which may be empty
  and which may inspect the outside world. It is an optional function that
  is passed the state `W` of the outside world and returns its answer with
  the new state of the world.
* So that one can say whether a call of `poll` invoked the predicate, `poll`
  also returns the list of invocations it made (pid passed, answer obtained).
-/

namespace rstudio.core.system

/-- Process identifier (`PidType`, an integral type declared in the header). -/
abbrev PidType := Int

/-- Tick count of a `ptime`, in microseconds. -/
abbrev Time := Int

/-- The duration `boost::posix_time::milliseconds(n)` in ticks. -/
def milliseconds (n : Int) : Int := n * 1000

/-- The duration `boost::posix_time::seconds(n)` in ticks. -/
def seconds (n : Int) : Int := n * 1000000

/-- How long does memory of "recent output" last? -/
def kResetRecentDelay : Int := seconds 1

/-- What is the minimum length of time before we check for subprocesses? -/
def kCheckSubprocDelay : Int := milliseconds 200

/-- The data members of `ChildProcessSubprocPoll`. -/
structure ChildProcessSubprocPoll (W : Type) where
  pid_ : PidType
  checkSubProcAfter_ : Option Time
  resetRecentOutputAfter_ : Option Time
  hasSubprocess_ : Bool
  hasRecentOutput_ : Bool
  stopped_ : Bool
  subProcCheck_ : Option (PidType → W → Bool × W)

/-- One invocation of the predicate: the pid passed and the answer. -/
structure Invocation where
  pid : PidType
  answer : Bool
deriving DecidableEq

/-- What a call of `poll` leaves behind: the object, the outside world, and
the invocations of the predicate made during the call, in order. -/
structure PollResult (W : Type) where
  self : ChildProcessSubprocPoll W
  world : W
  invoked : List Invocation

namespace ChildProcessSubprocPoll

variable {W : Type}

/-- The constructor `ChildProcessSubprocPoll(pid, subProcCheck)`. -/
def new (pid : PidType) (subProcCheck : Option (PidType → W → Bool × W)) :
    ChildProcessSubprocPoll W :=
  { pid_ := pid
    checkSubProcAfter_ := none
    resetRecentOutputAfter_ := none
    hasSubprocess_ := true
    hasRecentOutput_ := true
    stopped_ := false
    subProcCheck_ := subProcCheck }

/-- The accessor `hasSubprocess()`. -/
def hasSubprocess (s : ChildProcessSubprocPoll W) : Bool := s.hasSubprocess_

/-- The accessor `hasRecentOutput()`. -/
def hasRecentOutput (s : ChildProcessSubprocPoll W) : Bool := s.hasRecentOutput_

/-- The first part of `poll` (source lines 58 to 74): update the state of
"hasRecentOutput". -/
def updateRecentOutput (s : ChildProcessSubprocPoll W) (currentTime : Time)
    (hadOutput : Bool) : ChildProcessSubprocPoll W :=
  let s1 :=
    if hadOutput then
      { s with hasRecentOutput_ := true, resetRecentOutputAfter_ := none }
    else s
  match s1.resetRecentOutputAfter_ with
  | none =>
      { s1 with resetRecentOutputAfter_ := some (currentTime + kResetRecentDelay) }
  | some resetAfter =>
      if currentTime > resetAfter then
        { s1 with
          hasRecentOutput_ := false
          resetRecentOutputAfter_ := some (currentTime + kResetRecentDelay) }
      else s1

/-- The second part of `poll` (source lines 76 to 102): update the state of
"hasSubprocess", no more often than every `kCheckSubprocDelay`. -/
def updateSubprocess (s : ChildProcessSubprocPoll W) (currentTime : Time)
    (w : W) : PollResult W :=
  match s.subProcCheck_ with
  | none => { self := s, world := w, invoked := [] }
  | some subProcCheck =>
      if !s.hasRecentOutput then
        { self := { s with checkSubProcAfter_ := some (currentTime + kCheckSubprocDelay) }
          world := w
          invoked := [] }
      else
        match s.checkSubProcAfter_ with
        | none =>
            { self := { s with checkSubProcAfter_ := some (currentTime + kCheckSubprocDelay) }
              world := w
              invoked := [] }
        | some checkAfter =>
            if currentTime ≤ checkAfter then
              { self := s, world := w, invoked := [] }
            else
              let r := subProcCheck s.pid_ w
              { self :=
                  { s with
                    hasSubprocess_ := r.1
                    checkSubProcAfter_ := some (currentTime + kCheckSubprocDelay) }
                world := r.2
                invoked := [{ pid := s.pid_, answer := r.1 }] }

/-- The method `poll(hadOutput)`; `currentTime` is what `now()` returns
during the call and `w` the state of the outside world before it. -/
def poll (s : ChildProcessSubprocPoll W) (currentTime : Time) (hadOutput : Bool)
    (w : W) : PollResult W :=
  if s.stopped_ then { self := s, world := w, invoked := [] }
  else updateSubprocess (updateRecentOutput s currentTime hadOutput) currentTime w

/-- The method `stop()`. -/
def stop (s : ChildProcessSubprocPoll W) : ChildProcessSubprocPoll W :=
  { s with stopped_ := true }

end ChildProcessSubprocPoll

/-- A call made by the owner of the object. -/
inductive Call where
  | poll (currentTime : Time) (hadOutput : Bool)
  | stop
deriving DecidableEq

/-- The clock readings of the `poll` calls of a sequence, in order. -/
def callTimes : List Call → List Time
  | [] => []
  | Call.poll t _ :: cs => t :: callTimes cs
  | Call.stop :: cs => callTimes cs

/-- One call, made on the object `r.self` in the world `r.world`. The
invocations reported are those of this call alone. -/
def step {W : Type} (r : PollResult W) : Call → PollResult W
  | Call.poll t hadOutput => r.self.poll t hadOutput r.world
  | Call.stop => { self := r.self.stop, world := r.world, invoked := [] }

/-- A sequence of calls made one after the other on the object `s`, the
outside world being `w` at the start. The result reports the invocations of
the last call. -/
def run {W : Type} (s : ChildProcessSubprocPoll W) (w : W) (calls : List Call) :
    PollResult W :=
  calls.foldl step { self := s, world := w, invoked := [] }

/-- The calls `poll(hadOutput)` for a sequence of clock readings. -/
def pollsAt (hadOutput : Bool) (times : List Time) : List Call :=
  times.map (fun t => Call.poll t hadOutput)

/-- A predicate that always answers `b` and leaves the world alone. -/
def constCheck (b : Bool) : PidType → Unit → Bool × Unit :=
  fun _ w => (b, w)

/-- The object of the concrete scenario: pid 42 and a predicate that answers
`false`. -/
def scenario : ChildProcessSubprocPoll Unit := ChildProcessSubprocPoll.new 42 (some (constCheck false))

/-- The recent-output step as the specification words it, in three cases:
from the flag, the recent-output deadline, the time and `hadOutput` to the
new flag and the new deadline. -/
def recentOutputStepSpec (hasRecentOutput : Bool) (deadline : Option Time) (now : Time)
    (hadOutput : Bool) : Bool × Option Time :=
  match hadOutput, deadline with
  | true, _ => (true, some (now + kResetRecentDelay))
  | false, none => (hasRecentOutput, some (now + kResetRecentDelay))
  | false, some d =>
      if now > d then (false, some (now + kResetRecentDelay)) else (hasRecentOutput, some d)

/-- The subprocess step as the specification words it, in four cases: from
the recent-output flag after the recent-output step, `hasSubprocess`, the
subprocess-check deadline, the time and the answer the predicate gives for
the stored pid, to the new `hasSubprocess` and the new deadline. -/
def subprocessStepSpec (recent : Bool) (hasSubprocess : Bool) (deadline : Option Time)
    (now : Time) (answer : Bool) : Bool × Option Time :=
  if recent = false then (hasSubprocess, some (now + kCheckSubprocDelay))
  else
    match deadline with
    | none => (hasSubprocess, some (now + kCheckSubprocDelay))
    | some d =>
        if now ≤ d then (hasSubprocess, some d)
        else (answer, some (now + kCheckSubprocDelay))

/-- All the invocations of the predicate made by a sequence of calls, oldest
first: those of each call, one call after the other. -/
def invocationLog {W : Type} (r : PollResult W) : List Call → List Invocation
  | [] => []
  | c :: cs => (step r c).invoked ++ invocationLog (step r c) cs

/-- The answer of the most recent invocation in a log (oldest first), or
`default` when the log is empty. -/
def lastAnswer (default : Bool) (log : List Invocation) : Bool :=
  match log.getLast? with
  | none => default
  | some i => i.answer

/-! ## Single calls -/

namespace ChildProcessSubprocPoll

variable {W : Type}

theorem poll_of_stopped (s : ChildProcessSubprocPoll W) (hs : s.stopped_ = true)
    (t : Time) (hadOutput : Bool) (w : W) :
    s.poll t hadOutput w = { self := s, world := w, invoked := [] } := by
  simp [poll, hs]

theorem stop_of_stopped (s : ChildProcessSubprocPoll W) (hs : s.stopped_ = true) :
    s.stop = s := by
  cases s
  simp_all [stop]

theorem updateSubprocess_hasRecentOutput (s : ChildProcessSubprocPoll W) (t : Time)
    (w : W) : (s.updateSubprocess t w).self.hasRecentOutput_ = s.hasRecentOutput_ := by
  unfold updateSubprocess
  split
  · rfl
  · split
    · rfl
    · split
      · rfl
      · split <;> rfl

theorem updateSubprocess_invoked (s : ChildProcessSubprocPoll W) (t : Time) (w : W)
    (h : (s.updateSubprocess t w).invoked ≠ []) : s.hasRecentOutput_ = true := by
  unfold updateSubprocess at h
  split at h
  · simp at h
  · split at h
    · simp at h
    · simp_all [hasRecentOutput]

theorem updateSubprocess_of_not_recent (s : ChildProcessSubprocPoll W) (t : Time)
    (w : W) (h : s.hasRecentOutput_ = false) :
    (s.updateSubprocess t w).invoked = [] ∧
      (s.updateSubprocess t w).self.hasSubprocess_ = s.hasSubprocess_ := by
  unfold updateSubprocess
  split
  · simp
  · simp [hasRecentOutput, h]

theorem updateRecentOutput_hasSubprocess (s : ChildProcessSubprocPoll W) (t : Time)
    (hadOutput : Bool) :
    (s.updateRecentOutput t hadOutput).hasSubprocess_ = s.hasSubprocess_ := by
  unfold updateRecentOutput
  cases hadOutput
  · simp only [Bool.false_eq_true, if_false]
    split
    · rfl
    · split
      · rfl
      · rfl
  · rfl

theorem updateRecentOutput_checkSubProcAfter (s : ChildProcessSubprocPoll W) (t : Time)
    (hadOutput : Bool) :
    (s.updateRecentOutput t hadOutput).checkSubProcAfter_ = s.checkSubProcAfter_ := by
  unfold updateRecentOutput
  cases hadOutput
  · simp only [Bool.false_eq_true, if_false]
    split
    · rfl
    · split
      · rfl
      · rfl
  · rfl

theorem updateRecentOutput_subProcCheck (s : ChildProcessSubprocPoll W) (t : Time)
    (hadOutput : Bool) :
    (s.updateRecentOutput t hadOutput).subProcCheck_ = s.subProcCheck_ := by
  unfold updateRecentOutput
  cases hadOutput
  · simp only [Bool.false_eq_true, if_false]
    split
    · rfl
    · split
      · rfl
      · rfl
  · rfl

theorem updateSubprocess_invoked_length (s : ChildProcessSubprocPoll W) (t : Time)
    (w : W) : (s.updateSubprocess t w).invoked.length ≤ 1 := by
  unfold updateSubprocess
  split
  · simp
  · split
    · simp
    · split
      · simp
      · split <;> simp

theorem updateSubprocess_checkSubProcAfter (s : ChildProcessSubprocPoll W) (t : Time)
    (w : W) :
    (s.updateSubprocess t w).self.checkSubProcAfter_ = s.checkSubProcAfter_ ∨
      (s.updateSubprocess t w).self.checkSubProcAfter_ = some (t + kCheckSubprocDelay) := by
  unfold updateSubprocess
  split
  · exact Or.inl rfl
  · split
    · exact Or.inr rfl
    · split
      · exact Or.inr rfl
      · split
        · exact Or.inl rfl
        · exact Or.inr rfl

theorem updateSubprocess_invoked_checkSubProcAfter (s : ChildProcessSubprocPoll W)
    (t : Time) (w : W) (h : (s.updateSubprocess t w).invoked ≠ []) :
    (∃ d, s.checkSubProcAfter_ = some d ∧ d < t) ∧
      (s.updateSubprocess t w).self.checkSubProcAfter_ = some (t + kCheckSubprocDelay) := by
  cases hf : s.subProcCheck_ with
  | none => simp [updateSubprocess, hf] at h
  | some f =>
    cases hr : s.hasRecentOutput_ with
    | false => simp [updateSubprocess, hf, hasRecentOutput, hr] at h
    | true =>
      cases hd : s.checkSubProcAfter_ with
      | none => simp [updateSubprocess, hf, hasRecentOutput, hr, hd] at h
      | some d =>
        by_cases hlt : t ≤ d
        · simp [updateSubprocess, hf, hasRecentOutput, hr, hd, hlt] at h
        · simp only [updateSubprocess, hf, hasRecentOutput, hr, hd, hlt]
          simp
          exact not_le.mp hlt

theorem poll_invoked_length (s : ChildProcessSubprocPoll W) (t : Time)
    (hadOutput : Bool) (w : W) : (s.poll t hadOutput w).invoked.length ≤ 1 := by
  unfold poll
  split
  · simp
  · exact updateSubprocess_invoked_length _ _ _

theorem poll_checkSubProcAfter (s : ChildProcessSubprocPoll W) (t : Time)
    (hadOutput : Bool) (w : W) :
    (s.poll t hadOutput w).self.checkSubProcAfter_ = s.checkSubProcAfter_ ∨
      (s.poll t hadOutput w).self.checkSubProcAfter_ = some (t + kCheckSubprocDelay) := by
  unfold poll
  split
  · exact Or.inl rfl
  · have h := updateSubprocess_checkSubProcAfter (s.updateRecentOutput t hadOutput) t w
    rw [updateRecentOutput_checkSubProcAfter] at h
    exact h

theorem poll_invoked_checkSubProcAfter (s : ChildProcessSubprocPoll W) (t : Time)
    (hadOutput : Bool) (w : W) (h : (s.poll t hadOutput w).invoked ≠ []) :
    (∃ d, s.checkSubProcAfter_ = some d ∧ d < t) ∧
      (s.poll t hadOutput w).self.checkSubProcAfter_ = some (t + kCheckSubprocDelay) := by
  unfold poll at h ⊢
  split at h
  · simp at h
  · rename_i hs
    simp only [hs]
    have := updateSubprocess_invoked_checkSubProcAfter _ _ _ h
    rw [updateRecentOutput_checkSubProcAfter] at this
    simpa using this

theorem updateSubprocess_resetRecentOutputAfter (s : ChildProcessSubprocPoll W)
    (t : Time) (w : W) :
    (s.updateSubprocess t w).self.resetRecentOutputAfter_ = s.resetRecentOutputAfter_ := by
  unfold updateSubprocess
  split
  · rfl
  · split
    · rfl
    · split
      · rfl
      · split <;> rfl

/-- A `poll(true)` on an object that is not stopped sets the flag and starts
a new window of `kResetRecentDelay`. -/
theorem poll_true_recent (s : ChildProcessSubprocPoll W) (hs : s.stopped_ = false)
    (t : Time) (w : W) :
    (s.poll t true w).self.hasRecentOutput_ = true ∧
      (s.poll t true w).self.resetRecentOutputAfter_ = some (t + kResetRecentDelay) := by
  have hp : s.poll t true w = (s.updateRecentOutput t true).updateSubprocess t w := by
    simp [poll, hs]
  rw [hp, updateSubprocess_hasRecentOutput, updateSubprocess_resetRecentOutputAfter]
  exact ⟨rfl, rfl⟩

/-- A `poll(false)` on an object whose window is not armed arms it and keeps
the flag. -/
theorem poll_false_unarmed (s : ChildProcessSubprocPoll W) (hs : s.stopped_ = false)
    (hd : s.resetRecentOutputAfter_ = none) (t : Time) (w : W) :
    (s.poll t false w).self.hasRecentOutput_ = s.hasRecentOutput_ ∧
      (s.poll t false w).self.resetRecentOutputAfter_ = some (t + kResetRecentDelay) := by
  have hp : s.poll t false w = (s.updateRecentOutput t false).updateSubprocess t w := by
    simp [poll, hs]
  rw [hp, updateSubprocess_hasRecentOutput, updateSubprocess_resetRecentOutputAfter]
  simp [updateRecentOutput, hd]

/-- A `poll(false)` not later than the end of the window changes neither the
flag nor the window. -/
theorem poll_false_in_window (s : ChildProcessSubprocPoll W) (d : Time)
    (hd : s.resetRecentOutputAfter_ = some d) (t : Time) (ht : t ≤ d) (w : W) :
    (s.poll t false w).self.hasRecentOutput_ = s.hasRecentOutput_ ∧
      (s.poll t false w).self.resetRecentOutputAfter_ = some d := by
  cases hs : s.stopped_ with
  | true =>
    rw [poll_of_stopped s hs]
    exact ⟨rfl, hd⟩
  | false =>
    have hp : s.poll t false w = (s.updateRecentOutput t false).updateSubprocess t w := by
      simp [poll, hs]
    have hu : s.updateRecentOutput t false = s := by
      simp [updateRecentOutput, hd, not_lt.mpr ht]
    rw [hp, updateSubprocess_hasRecentOutput, updateSubprocess_resetRecentOutputAfter, hu]
    exact ⟨rfl, hd⟩

theorem updateRecentOutput_stopped (s : ChildProcessSubprocPoll W) (t : Time)
    (hadOutput : Bool) :
    (s.updateRecentOutput t hadOutput).stopped_ = s.stopped_ := by
  unfold updateRecentOutput
  cases hadOutput
  · simp only [Bool.false_eq_true, if_false]
    split
    · rfl
    · split
      · rfl
      · rfl
  · rfl

theorem updateRecentOutput_pid (s : ChildProcessSubprocPoll W) (t : Time)
    (hadOutput : Bool) :
    (s.updateRecentOutput t hadOutput).pid_ = s.pid_ := by
  unfold updateRecentOutput
  cases hadOutput
  · simp only [Bool.false_eq_true, if_false]
    split
    · rfl
    · split
      · rfl
      · rfl
  · rfl

theorem updateSubprocess_stopped (s : ChildProcessSubprocPoll W) (t : Time) (w : W) :
    (s.updateSubprocess t w).self.stopped_ = s.stopped_ := by
  unfold updateSubprocess
  split
  · rfl
  · split
    · rfl
    · split
      · rfl
      · split <;> rfl

theorem updateSubprocess_pid (s : ChildProcessSubprocPoll W) (t : Time) (w : W) :
    (s.updateSubprocess t w).self.pid_ = s.pid_ := by
  unfold updateSubprocess
  split
  · rfl
  · split
    · rfl
    · split
      · rfl
      · split <;> rfl

theorem poll_of_not_stopped (s : ChildProcessSubprocPoll W) (hs : s.stopped_ = false)
    (t : Time) (hadOutput : Bool) (w : W) :
    s.poll t hadOutput w = (s.updateRecentOutput t hadOutput).updateSubprocess t w := by
  simp [poll, hs]

theorem poll_stopped (s : ChildProcessSubprocPoll W) (t : Time) (hadOutput : Bool)
    (w : W) : (s.poll t hadOutput w).self.stopped_ = s.stopped_ := by
  cases hs : s.stopped_ with
  | true => rw [poll_of_stopped s hs]; exact hs
  | false =>
    rw [poll_of_not_stopped s hs, updateSubprocess_stopped, updateRecentOutput_stopped]
    exact hs

theorem poll_pid (s : ChildProcessSubprocPoll W) (t : Time) (hadOutput : Bool)
    (w : W) : (s.poll t hadOutput w).self.pid_ = s.pid_ := by
  cases hs : s.stopped_ with
  | true => rw [poll_of_stopped s hs]
  | false => rw [poll_of_not_stopped s hs, updateSubprocess_pid, updateRecentOutput_pid]

/-- The recent-output part of `poll` computes what the three cases of the
specification say. -/
theorem updateRecentOutput_eq_spec (s : ChildProcessSubprocPoll W) (t : Time)
    (hadOutput : Bool) :
    ((s.updateRecentOutput t hadOutput).hasRecentOutput_,
        (s.updateRecentOutput t hadOutput).resetRecentOutputAfter_) =
      recentOutputStepSpec s.hasRecentOutput_ s.resetRecentOutputAfter_ t hadOutput := by
  cases hadOutput with
  | true => rfl
  | false =>
    cases hd : s.resetRecentOutputAfter_ with
    | none => simp [updateRecentOutput, recentOutputStepSpec, hd]
    | some d =>
      by_cases hlt : t > d
      · simp [updateRecentOutput, recentOutputStepSpec, hd, hlt]
      · simp [updateRecentOutput, recentOutputStepSpec, hd, hlt]

/-- The subprocess part of `poll`, with a predicate, computes what the four
cases of the specification say. -/
theorem updateSubprocess_eq_spec (s : ChildProcessSubprocPoll W)
    (f : PidType → W → Bool × W) (hf : s.subProcCheck_ = some f) (t : Time) (w : W) :
    ((s.updateSubprocess t w).self.hasSubprocess_,
        (s.updateSubprocess t w).self.checkSubProcAfter_) =
      subprocessStepSpec s.hasRecentOutput_ s.hasSubprocess_ s.checkSubProcAfter_ t
        (f s.pid_ w).1 := by
  cases hr : s.hasRecentOutput_ with
  | false => simp [updateSubprocess, subprocessStepSpec, hf, hasRecentOutput, hr]
  | true =>
    cases hd : s.checkSubProcAfter_ with
    | none => simp [updateSubprocess, subprocessStepSpec, hf, hasRecentOutput, hr, hd]
    | some d =>
      by_cases hle : t ≤ d
      · simp [updateSubprocess, subprocessStepSpec, hf, hasRecentOutput, hr, hd, hle]
      · simp [updateSubprocess, subprocessStepSpec, hf, hasRecentOutput, hr, hd, hle]

/-- A call of the subprocess part either invokes nothing and leaves
`hasSubprocess_` alone, or invokes the predicate once, on the stored pid,
and stores its answer. -/
theorem updateSubprocess_invoked_cases (s : ChildProcessSubprocPoll W) (t : Time) (w : W) :
    ((s.updateSubprocess t w).invoked = [] ∧
        (s.updateSubprocess t w).self.hasSubprocess_ = s.hasSubprocess_) ∨
      ∃ b, (s.updateSubprocess t w).invoked = [{ pid := s.pid_, answer := b }] ∧
        (s.updateSubprocess t w).self.hasSubprocess_ = b := by
  unfold updateSubprocess
  split
  · exact Or.inl ⟨rfl, rfl⟩
  · split
    · exact Or.inl ⟨rfl, rfl⟩
    · split
      · exact Or.inl ⟨rfl, rfl⟩
      · split
        · exact Or.inl ⟨rfl, rfl⟩
        · exact Or.inr ⟨_, rfl, rfl⟩

theorem poll_invoked_cases (s : ChildProcessSubprocPoll W) (t : Time) (hadOutput : Bool)
    (w : W) :
    ((s.poll t hadOutput w).invoked = [] ∧
        (s.poll t hadOutput w).self.hasSubprocess_ = s.hasSubprocess_) ∨
      ∃ b, (s.poll t hadOutput w).invoked = [{ pid := s.pid_, answer := b }] ∧
        (s.poll t hadOutput w).self.hasSubprocess_ = b := by
  cases hs : s.stopped_ with
  | true =>
    rw [poll_of_stopped s hs]
    exact Or.inl ⟨rfl, rfl⟩
  | false =>
    rw [poll_of_not_stopped s hs]
    have h := updateSubprocess_invoked_cases (s.updateRecentOutput t hadOutput) t w
    rw [updateRecentOutput_hasSubprocess, updateRecentOutput_pid] at h
    exact h

/-- The first `poll` on a freshly constructed object with a predicate arms
both deadlines and invokes nothing. -/
theorem poll_new (pid : PidType) (check : PidType → W → Bool × W) (t : Time)
    (hadOutput : Bool) (w : W) :
    (new pid (some check)).poll t hadOutput w =
      { self :=
          { new pid (some check) with
            resetRecentOutputAfter_ := some (t + kResetRecentDelay)
            checkSubProcAfter_ := some (t + kCheckSubprocDelay) }
        world := w
        invoked := [] } := by
  cases hadOutput <;> rfl

/-- A `poll(false)` after the end of the window clears the flag and arms a
new window. -/
theorem poll_false_expired (s : ChildProcessSubprocPoll W) (hs : s.stopped_ = false)
    (d : Time) (hd : s.resetRecentOutputAfter_ = some d) (t : Time) (ht : d < t) (w : W) :
    (s.poll t false w).self.hasRecentOutput_ = false ∧
      (s.poll t false w).self.resetRecentOutputAfter_ = some (t + kResetRecentDelay) := by
  rw [poll_of_not_stopped s hs, updateSubprocess_hasRecentOutput,
    updateSubprocess_resetRecentOutputAfter]
  have h := updateRecentOutput_eq_spec s t false
  rw [hd] at h
  simp only [recentOutputStepSpec, gt_iff_lt, ht, if_true, Prod.mk.injEq] at h
  exact h

/-- A `poll(false)` on an object whose flag is false leaves the flag false,
invokes nothing and leaves `hasSubprocess_` alone. -/
theorem poll_false_of_not_recent (s : ChildProcessSubprocPoll W)
    (hr : s.hasRecentOutput_ = false) (t : Time) (w : W) :
    (s.poll t false w).self.hasRecentOutput_ = false ∧
      (s.poll t false w).invoked = [] ∧
      (s.poll t false w).self.hasSubprocess_ = s.hasSubprocess_ := by
  cases hs : s.stopped_ with
  | true =>
    rw [poll_of_stopped s hs]
    exact ⟨hr, rfl, rfl⟩
  | false =>
    have h1 : (s.updateRecentOutput t false).hasRecentOutput_ = false := by
      have h : (s.updateRecentOutput t false).hasRecentOutput_ =
          (recentOutputStepSpec s.hasRecentOutput_ s.resetRecentOutputAfter_ t false).1 :=
        congrArg Prod.fst (updateRecentOutput_eq_spec s t false)
      rw [h, hr]
      cases hd : s.resetRecentOutputAfter_ with
      | none => rfl
      | some d =>
        by_cases hlt : t > d
        · simp [recentOutputStepSpec, hlt]
        · simp [recentOutputStepSpec, hlt]
    obtain ⟨h2, h3⟩ := updateSubprocess_of_not_recent _ t w h1
    rw [poll_of_not_stopped s hs, updateSubprocess_hasRecentOutput]
    exact ⟨h1, h2, h3.trans (updateRecentOutput_hasSubprocess s t false)⟩

/-- The recent-output side of `updateRecentOutput` reads only the flag and
the recent-output deadline. -/
theorem updateRecentOutput_congr {W1 W2 : Type} (s1 : ChildProcessSubprocPoll W1)
    (s2 : ChildProcessSubprocPoll W2) (hr : s1.hasRecentOutput_ = s2.hasRecentOutput_)
    (hd : s1.resetRecentOutputAfter_ = s2.resetRecentOutputAfter_) (t : Time)
    (hadOutput : Bool) :
    (s1.updateRecentOutput t hadOutput).hasRecentOutput_ =
        (s2.updateRecentOutput t hadOutput).hasRecentOutput_ ∧
      (s1.updateRecentOutput t hadOutput).resetRecentOutputAfter_ =
        (s2.updateRecentOutput t hadOutput).resetRecentOutputAfter_ := by
  have h1 := updateRecentOutput_eq_spec s1 t hadOutput
  have h2 := updateRecentOutput_eq_spec s2 t hadOutput
  rw [hr, hd, ← h2] at h1
  exact ⟨congrArg Prod.fst h1, congrArg Prod.snd h1⟩

end ChildProcessSubprocPoll

theorem lastAnswer_nil (default : Bool) : lastAnswer default [] = default := rfl

theorem lastAnswer_cons (default : Bool) (i : Invocation) (log : List Invocation) :
    lastAnswer default (i :: log) = lastAnswer i.answer log := by
  unfold lastAnswer
  rw [List.getLast?_cons]
  cases log.getLast? <;> rfl

/-! ## Sequences of calls -/

section Sequences

variable {W : Type}

open ChildProcessSubprocPoll

theorem run_append (s : ChildProcessSubprocPoll W) (w : W) (pre post : List Call) :
    run s w (pre ++ post) = post.foldl step (run s w pre) := by
  simp [run, List.foldl_append]

theorem callTimes_append (pre post : List Call) :
    callTimes (pre ++ post) = callTimes pre ++ callTimes post := by
  induction pre with
  | nil => rfl
  | cons c cs ih => cases c <;> simp [callTimes, ih]

theorem callTimes_pollsAt (hadOutput : Bool) (ts : List Time) :
    callTimes (pollsAt hadOutput ts) = ts := by
  induction ts with
  | nil => rfl
  | cons t ts ih =>
    have h : callTimes (pollsAt hadOutput ts) = ts := ih
    simp [pollsAt, callTimes] at h ⊢
    exact h

/-- Once set, the subprocess-check deadline stays set and does not decrease
along calls whose clock readings are non-decreasing and not more than
`kCheckSubprocDelay` behind the deadline. -/
theorem foldl_step_checkSubProcAfter_mono (calls : List Call) :
    ∀ (r : PollResult W) (d : Time), r.self.checkSubProcAfter_ = some d →
      (∀ t ∈ callTimes calls, d ≤ t + kCheckSubprocDelay) →
      (callTimes calls).Pairwise (· ≤ ·) →
      ∃ d1, (calls.foldl step r).self.checkSubProcAfter_ = some d1 ∧ d ≤ d1 := by
  induction calls with
  | nil => intro r d hd _ _; exact ⟨d, hd, le_refl d⟩
  | cons c cs ih =>
    intro r d hd hle hsorted
    cases c with
    | stop =>
      simp only [callTimes] at hle hsorted
      exact ih (step r Call.stop) d hd hle hsorted
    | poll t hadOutput =>
      simp only [callTimes, List.mem_cons, forall_eq_or_imp, List.pairwise_cons] at hle hsorted
      rcases poll_checkSubProcAfter r.self t hadOutput r.world with h | h
      · exact ih (step r (Call.poll t hadOutput)) d (by rw [← hd]; exact h) hle.2 hsorted.2
      · obtain ⟨d1, h1, h2⟩ := ih (step r (Call.poll t hadOutput)) (t + kCheckSubprocDelay) h
          (fun u hu => by have := hsorted.1 u hu; linarith) hsorted.2
        exact ⟨d1, h1, by linarith [hle.1]⟩

/-- A subprocess-check deadline is at most `kCheckSubprocDelay` after the
latest clock reading seen so far. -/
theorem foldl_step_checkSubProcAfter_le (calls : List Call) :
    ∀ (r : PollResult W) (bound : Time),
      (∀ d, r.self.checkSubProcAfter_ = some d → d ≤ bound + kCheckSubprocDelay) →
      (∀ t ∈ callTimes calls, t ≤ bound) →
      ∀ d, (calls.foldl step r).self.checkSubProcAfter_ = some d →
        d ≤ bound + kCheckSubprocDelay := by
  induction calls with
  | nil => intro r bound h _ d hd; exact h d hd
  | cons c cs ih =>
    intro r bound h hle
    cases c with
    | stop =>
      simp only [callTimes] at hle
      exact ih (step r Call.stop) bound h hle
    | poll t hadOutput =>
      simp only [callTimes, List.mem_cons, forall_eq_or_imp] at hle
      refine ih (step r (Call.poll t hadOutput)) bound ?_ hle.2
      intro d hd
      rcases poll_checkSubProcAfter r.self t hadOutput r.world with h1 | h1
      · exact h d (by rw [← h1]; exact hd)
      · have h2 : (step r (Call.poll t hadOutput)).self.checkSubProcAfter_ =
            some (t + kCheckSubprocDelay) := h1
        rw [h2] at hd
        have h3 : t + kCheckSubprocDelay = d := Option.some.inj hd
        linarith [hle.1]

/-- Without a predicate, a call changes neither `hasSubprocess_` nor the
subprocess-check deadline. -/
theorem step_without_predicate (r : PollResult W) (c : Call)
    (h : r.self.subProcCheck_ = none) :
    (step r c).self.subProcCheck_ = none ∧
      (step r c).self.hasSubprocess_ = r.self.hasSubprocess_ ∧
      (step r c).self.checkSubProcAfter_ = r.self.checkSubProcAfter_ := by
  cases c with
  | stop => exact ⟨h, rfl, rfl⟩
  | poll t hadOutput =>
    have h1 := updateRecentOutput_subProcCheck r.self t hadOutput
    have h2 := updateRecentOutput_hasSubprocess r.self t hadOutput
    have h3 := updateRecentOutput_checkSubProcAfter r.self t hadOutput
    rw [h] at h1
    simp only [step, poll]
    split
    · exact ⟨h, rfl, rfl⟩
    · have h4 : (r.self.updateRecentOutput t hadOutput).updateSubprocess t r.world =
          { self := r.self.updateRecentOutput t hadOutput, world := r.world, invoked := [] } := by
        simp only [updateSubprocess, h1]
      rw [h4]
      exact ⟨h1, h2, h3⟩

theorem foldl_step_without_predicate (calls : List Call) :
    ∀ r : PollResult W, r.self.subProcCheck_ = none →
      (calls.foldl step r).self.hasSubprocess_ = r.self.hasSubprocess_ ∧
        (calls.foldl step r).self.checkSubProcAfter_ = r.self.checkSubProcAfter_ := by
  induction calls with
  | nil => intro r _; exact ⟨rfl, rfl⟩
  | cons c cs ih =>
    intro r h
    obtain ⟨h1, h2, h3⟩ := step_without_predicate r c h
    obtain ⟨h4, h5⟩ := ih (step r c) h1
    exact ⟨h4.trans h2, h5.trans h3⟩

/-- A stopped object is left as it is by every call. -/
theorem step_of_stopped (r : PollResult W) (c : Call) (h : r.self.stopped_ = true) :
    (step r c).self = r.self ∧ (step r c).world = r.world ∧ (step r c).invoked = [] := by
  cases c with
  | stop => exact ⟨stop_of_stopped r.self h, rfl, rfl⟩
  | poll t hadOutput =>
    simp only [step]
    rw [poll_of_stopped r.self h]
    exact ⟨rfl, rfl, rfl⟩

theorem foldl_step_of_stopped (calls : List Call) :
    ∀ r : PollResult W, r.self.stopped_ = true →
      (calls.foldl step r).self = r.self ∧ (calls.foldl step r).world = r.world := by
  induction calls with
  | nil => intro r _; exact ⟨rfl, rfl⟩
  | cons c cs ih =>
    intro r h
    obtain ⟨h1, h2, _⟩ := step_of_stopped r c h
    obtain ⟨h3, h4⟩ := ih (step r c) (by rw [h1]; exact h)
    exact ⟨h3.trans h1, h4.trans h2⟩

/-- Polls without output, none later than the end of the window, change
neither the recent-output flag nor the window. -/
theorem foldl_step_pollsAt_false_in_window (ts : List Time) :
    ∀ (r : PollResult W) (d : Time), r.self.resetRecentOutputAfter_ = some d →
      (∀ t ∈ ts, t ≤ d) →
      ((pollsAt false ts).foldl step r).self.hasRecentOutput_ = r.self.hasRecentOutput_ ∧
        ((pollsAt false ts).foldl step r).self.resetRecentOutputAfter_ = some d := by
  induction ts with
  | nil => intro r d hd _; exact ⟨rfl, hd⟩
  | cons t ts ih =>
    intro r d hd hle
    simp only [List.mem_cons, forall_eq_or_imp] at hle
    obtain ⟨h1, h2⟩ := poll_false_in_window r.self d hd t hle.1 r.world
    obtain ⟨h3, h4⟩ := ih (step r (Call.poll t false)) d h2 hle.2
    exact ⟨h3.trans h1, h4⟩

/-- In a non-decreasing list, the entries up to a position are at most the
entry at that position. -/
theorem le_of_mem_take_of_sorted (l : List Time) :
    ∀ (n : Nat) (t : Time), l.Pairwise (· ≤ ·) → l[n]? = some t →
      ∀ u ∈ l.take (n + 1), u ≤ t := by
  induction l with
  | nil => intro n t _ h; simp at h
  | cons a l ih =>
    intro n t hsorted h u hu
    rw [List.pairwise_cons] at hsorted
    cases n with
    | zero =>
      simp at h hu
      rw [hu, h]
    | succ k =>
      simp only [List.getElem?_cons_succ] at h
      simp only [List.take_succ_cons, List.mem_cons] at hu
      rcases hu with hu | hu
      · rw [hu]
        exact hsorted.1 t (List.getElem?_mem h)
      · exact ih k t hsorted.2 h u hu

theorem foldl_step_pollsAt_stopped (hadOutput : Bool) (ts : List Time) :
    ∀ r : PollResult W,
      ((pollsAt hadOutput ts).foldl step r).self.stopped_ = r.self.stopped_ := by
  induction ts with
  | nil => intro r; rfl
  | cons t ts ih =>
    intro r
    exact (ih (step r (Call.poll t hadOutput))).trans (poll_stopped r.self t hadOutput r.world)

theorem step_pid (r : PollResult W) (c : Call) : (step r c).self.pid_ = r.self.pid_ := by
  cases c with
  | stop => rfl
  | poll t hadOutput => exact poll_pid r.self t hadOutput r.world

/-- A call either invokes nothing and leaves `hasSubprocess_` alone, or
invokes the predicate once, on the stored pid, and stores its answer. -/
theorem step_invoked_cases (r : PollResult W) (c : Call) :
    ((step r c).invoked = [] ∧ (step r c).self.hasSubprocess_ = r.self.hasSubprocess_) ∨
      ∃ b, (step r c).invoked = [{ pid := r.self.pid_, answer := b }] ∧
        (step r c).self.hasSubprocess_ = b := by
  cases c with
  | stop => exact Or.inl ⟨rfl, rfl⟩
  | poll t hadOutput => exact poll_invoked_cases r.self t hadOutput r.world

/-- After a sequence of calls `hasSubprocess_` is the answer of the most
recent invocation, or what it was when there was none; and every invocation
is on the stored pid. -/
theorem foldl_step_lastAnswer (calls : List Call) :
    ∀ r : PollResult W,
      (calls.foldl step r).self.hasSubprocess_ =
          lastAnswer r.self.hasSubprocess_ (invocationLog r calls) ∧
        ∀ i ∈ invocationLog r calls, i.pid = r.self.pid_ := by
  induction calls with
  | nil => intro r; exact ⟨rfl, fun i hi => by simp [invocationLog] at hi⟩
  | cons c cs ih =>
    intro r
    obtain ⟨h1, h2⟩ := ih (step r c)
    rw [step_pid] at h2
    simp only [List.foldl_cons, invocationLog]
    rcases step_invoked_cases r c with ⟨h3, h4⟩ | ⟨b, h3, h4⟩
    · rw [h3, List.nil_append, h1, h4]
      exact ⟨rfl, h2⟩
    · rw [h3, h1, h4, List.singleton_append, lastAnswer_cons]
      refine ⟨rfl, fun i hi => ?_⟩
      rcases List.mem_cons.mp hi with hi | hi
      · rw [hi]
      · exact h2 i hi

/-- While no call is a `poll(true)`, a false recent-output flag stays false,
`hasSubprocess_` stays as it is and the predicate is not invoked. -/
theorem foldl_step_no_output (calls : List Call) :
    ∀ r : PollResult W, r.self.hasRecentOutput_ = false →
      (∀ u, Call.poll u true ∉ calls) →
      (calls.foldl step r).self.hasRecentOutput_ = false ∧
        (calls.foldl step r).self.hasSubprocess_ = r.self.hasSubprocess_ ∧
        invocationLog r calls = [] := by
  induction calls with
  | nil => intro r hr _; exact ⟨hr, rfl, rfl⟩
  | cons c cs ih =>
    intro r hr hno
    have hno1 : ∀ u, Call.poll u true ∉ cs := fun u hu => hno u (List.mem_cons_of_mem c hu)
    cases c with
    | stop =>
      obtain ⟨h1, h2, h3⟩ := ih (step r Call.stop) hr hno1
      exact ⟨h1, h2, by simp only [invocationLog, h3]; rfl⟩
    | poll t hadOutput =>
      cases hadOutput with
      | true => exact absurd (List.mem_cons_self _ _) (hno t)
      | false =>
        obtain ⟨h4, h5, h6⟩ := poll_false_of_not_recent r.self hr t r.world
        obtain ⟨h1, h2, h3⟩ := ih (step r (Call.poll t false)) h4 hno1
        refine ⟨h1, h2.trans h6, ?_⟩
        simp only [invocationLog, h3, List.append_nil]
        exact h5

/-- One call keeps two objects in agreement on the recent-output flag, the
recent-output deadline and `stopped_`, whatever their pids, predicates and
worlds. -/
theorem step_recent_congr {W1 W2 : Type} (r1 : PollResult W1) (r2 : PollResult W2)
    (c : Call) (hr : r1.self.hasRecentOutput_ = r2.self.hasRecentOutput_)
    (hd : r1.self.resetRecentOutputAfter_ = r2.self.resetRecentOutputAfter_)
    (hs : r1.self.stopped_ = r2.self.stopped_) :
    (step r1 c).self.hasRecentOutput_ = (step r2 c).self.hasRecentOutput_ ∧
      (step r1 c).self.resetRecentOutputAfter_ = (step r2 c).self.resetRecentOutputAfter_ ∧
      (step r1 c).self.stopped_ = (step r2 c).self.stopped_ := by
  cases c with
  | stop => exact ⟨hr, hd, rfl⟩
  | poll t hadOutput =>
    simp only [step]
    cases h1 : r1.self.stopped_ with
    | true =>
      have h2 : r2.self.stopped_ = true := by rw [← hs]; exact h1
      rw [poll_of_stopped _ h1, poll_of_stopped _ h2]
      exact ⟨hr, hd, h1.trans h2.symm⟩
    | false =>
      have h2 : r2.self.stopped_ = false := by rw [← hs]; exact h1
      obtain ⟨h3, h4⟩ := updateRecentOutput_congr r1.self r2.self hr hd t hadOutput
      rw [poll_of_not_stopped _ h1, poll_of_not_stopped _ h2,
        updateSubprocess_hasRecentOutput, updateSubprocess_hasRecentOutput,
        updateSubprocess_resetRecentOutputAfter, updateSubprocess_resetRecentOutputAfter,
        updateSubprocess_stopped, updateSubprocess_stopped, updateRecentOutput_stopped,
        updateRecentOutput_stopped]
      exact ⟨h3, h4, h1.trans h2.symm⟩

theorem foldl_step_recent_congr {W1 W2 : Type} (calls : List Call) :
    ∀ (r1 : PollResult W1) (r2 : PollResult W2),
      r1.self.hasRecentOutput_ = r2.self.hasRecentOutput_ →
      r1.self.resetRecentOutputAfter_ = r2.self.resetRecentOutputAfter_ →
      r1.self.stopped_ = r2.self.stopped_ →
      (calls.foldl step r1).self.hasRecentOutput_ =
          (calls.foldl step r2).self.hasRecentOutput_ ∧
        (calls.foldl step r1).self.resetRecentOutputAfter_ =
          (calls.foldl step r2).self.resetRecentOutputAfter_ := by
  induction calls with
  | nil => intro r1 r2 hr hd _; exact ⟨hr, hd⟩
  | cons c cs ih =>
    intro r1 r2 hr hd hs
    obtain ⟨h1, h2, h3⟩ := step_recent_congr r1 r2 c hr hd hs
    exact ih (step r1 c) (step r2 c) h1 h2 h3

end Sequences

/-! ## The properties of the specification -/

section Properties

variable {W : Type}

open ChildProcessSubprocPoll

/-- C9. Initial state: whatever the pid and whether or not a predicate is
given, the constructed object has `hasSubprocess()` and `hasRecentOutput()`
true, both deadlines unset and is not stopped (and it stores the pid and the
predicate it was given). -/
theorem new_initial_state (pid : PidType)
    (subProcCheck : Option (PidType → W → Bool × W)) :
    (new pid subProcCheck).hasSubprocess = true ∧
      (new pid subProcCheck).hasRecentOutput = true ∧
      (new pid subProcCheck).checkSubProcAfter_ = none ∧
      (new pid subProcCheck).resetRecentOutputAfter_ = none ∧
      (new pid subProcCheck).stopped_ = false ∧
      (new pid subProcCheck).pid_ = pid ∧
      (new pid subProcCheck).subProcCheck_ = subProcCheck :=
  ⟨rfl, rfl, rfl, rfl, rfl, rfl, rfl⟩

/-- C3. After `stop()`, `poll` is a no-op: on a stopped object every `poll`
returns the object unchanged (flags, deadlines, stopped), leaves the world
alone and invokes nothing; hence any sequence of further calls leaves the
object, and so `hasSubprocess()` and `hasRecentOutput()`, unchanged. -/
theorem poll_after_stop (s : ChildProcessSubprocPoll W) (hs : s.stopped_ = true) :
    (∀ (t : Time) (hadOutput : Bool) (w : W),
        s.poll t hadOutput w = { self := s, world := w, invoked := [] }) ∧
      ∀ (w : W) (calls : List Call),
        (run s w calls).self = s ∧
          (run s w calls).self.hasSubprocess = s.hasSubprocess ∧
          (run s w calls).self.hasRecentOutput = s.hasRecentOutput := by
  refine ⟨fun t hadOutput w => poll_of_stopped s hs t hadOutput w, fun w calls => ?_⟩
  have h := (foldl_step_of_stopped calls { self := s, world := w, invoked := [] } hs).1
  have h1 : (run s w calls).self = s := h
  rw [h1]
  exact ⟨rfl, rfl, rfl⟩

theorem poll_after_stop_witness :
    (new 42 (some (constCheck false))).stop.stopped_ = true ∧
      ((∀ (t : Time) (hadOutput : Bool) (w : Unit),
          (new 42 (some (constCheck false))).stop.poll t hadOutput w =
            { self := (new 42 (some (constCheck false))).stop, world := w, invoked := [] }) ∧
        ∀ (w : Unit) (calls : List Call),
          (run (new 42 (some (constCheck false))).stop w calls).self =
              (new 42 (some (constCheck false))).stop ∧
            (run (new 42 (some (constCheck false))).stop w calls).self.hasSubprocess =
              (new 42 (some (constCheck false))).stop.hasSubprocess ∧
            (run (new 42 (some (constCheck false))).stop w calls).self.hasRecentOutput =
              (new 42 (some (constCheck false))).stop.hasRecentOutput) :=
  ⟨rfl, poll_after_stop (new 42 (some (constCheck false))).stop rfl⟩

/-- C2. Output gating: if `poll` invokes the predicate, `hasRecentOutput()`
is true at the moment of the invocation (on the object as the first part of
`poll` left it) and on the object `poll` returns; and a `poll` whose updated
recent-output flag is false invokes nothing and leaves `hasSubprocess()`
unchanged. -/
theorem poll_output_gating (s : ChildProcessSubprocPoll W) (t : Time)
    (hadOutput : Bool) (w : W) :
    ((s.poll t hadOutput w).invoked ≠ [] →
        (s.updateRecentOutput t hadOutput).hasRecentOutput = true ∧
          (s.poll t hadOutput w).self.hasRecentOutput = true) ∧
      ((s.updateRecentOutput t hadOutput).hasRecentOutput = false →
        (s.poll t hadOutput w).invoked = [] ∧
          (s.poll t hadOutput w).self.hasSubprocess = s.hasSubprocess) ∧
      ((s.poll t hadOutput w).self.hasRecentOutput = false →
        (s.poll t hadOutput w).invoked = [] ∧
          (s.poll t hadOutput w).self.hasSubprocess = s.hasSubprocess) := by
  cases hs : s.stopped_ with
  | true =>
    rw [poll_of_stopped s hs]
    exact ⟨fun h => absurd rfl h, fun _ => ⟨rfl, rfl⟩, fun _ => ⟨rfl, rfl⟩⟩
  | false =>
    have hp : s.poll t hadOutput w =
        (s.updateRecentOutput t hadOutput).updateSubprocess t w := by
      simp [poll, hs]
    rw [hp]
    have hr := updateSubprocess_hasRecentOutput (s.updateRecentOutput t hadOutput) t w
    have hsub := updateRecentOutput_hasSubprocess s t hadOutput
    refine ⟨fun h => ?_, fun h => ?_, fun h => ?_⟩
    · have h1 := updateSubprocess_invoked _ t w h
      exact ⟨h1, hr.trans h1⟩
    · obtain ⟨h1, h2⟩ := updateSubprocess_of_not_recent _ t w h
      exact ⟨h1, h2.trans hsub⟩
    · obtain ⟨h1, h2⟩ := updateSubprocess_of_not_recent _ t w (hr.symm.trans h)
      exact ⟨h1, h2.trans hsub⟩

theorem poll_output_gating_witness :
    (((run scenario () [Call.poll 0 true]).self.poll (milliseconds 250) false ()).invoked ≠ [] ∧
      (((run scenario () [Call.poll 0 true]).self.updateRecentOutput
          (milliseconds 250) false).hasRecentOutput = true ∧
        ((run scenario () [Call.poll 0 true]).self.poll
          (milliseconds 250) false ()).self.hasRecentOutput = true)) ∧
      (((run scenario () [Call.poll 0 true]).self.updateRecentOutput
          (milliseconds 1250) false).hasRecentOutput = false ∧
        (((run scenario () [Call.poll 0 true]).self.poll
            (milliseconds 1250) false ()).invoked = [] ∧
          ((run scenario () [Call.poll 0 true]).self.poll
            (milliseconds 1250) false ()).self.hasSubprocess
              = (run scenario () [Call.poll 0 true]).self.hasSubprocess)) :=
  ⟨⟨by decide,
      (poll_output_gating (run scenario () [Call.poll 0 true]).self
        (milliseconds 250) false ()).1 (by decide)⟩,
    ⟨by decide,
      (poll_output_gating (run scenario () [Call.poll 0 true]).self
        (milliseconds 1250) false ()).2.1 (by decide)⟩⟩

/-- C4. Without a predicate, `hasSubprocess()` never changes: after every
sequence of `poll` calls (any clock readings, any `hadOutput`) and `stop`
calls on an object constructed without a predicate, `hasSubprocess()` is
true and the subprocess-check deadline is unset. -/
theorem hasSubprocess_without_predicate (pid : PidType) (w : W) (calls : List Call) :
    (run (new pid none) w calls).self.hasSubprocess = true ∧
      (run (new pid none) w calls).self.checkSubProcAfter_ = none :=
  foldl_step_without_predicate calls { self := new pid none, world := w, invoked := [] } rfl

/-- C1. Rate limit: in a sequence of calls with non-decreasing clock readings
made on a freshly constructed object with a predicate, two polls that both
invoke the predicate are more than `kCheckSubprocDelay` (200 ms) apart; and
a single `poll`, on any object, invokes the predicate at most once. Here the
two polls are `poll t1` and `poll t2`, with `pre` the calls before the first
and `mid` the calls between them. -/
theorem poll_rate_limit (pid : PidType) (check : PidType → W → Bool × W) (w : W)
    (pre mid : List Call) (t1 t2 : Time) (out1 out2 : Bool)
    (hsorted :
      (callTimes (pre ++ [Call.poll t1 out1] ++ mid ++ [Call.poll t2 out2])).Pairwise (· ≤ ·))
    (h1 : (run (new pid (some check)) w (pre ++ [Call.poll t1 out1])).invoked ≠ [])
    (h2 : (run (new pid (some check)) w
      (pre ++ [Call.poll t1 out1] ++ mid ++ [Call.poll t2 out2])).invoked ≠ []) :
    t1 + kCheckSubprocDelay < t2 ∧
      ∀ (s : ChildProcessSubprocPoll W) (t : Time) (hadOutput : Bool) (w1 : W),
        (s.poll t hadOutput w1).invoked.length ≤ 1 := by
  refine ⟨?_, poll_invoked_length⟩
  simp only [callTimes_append, callTimes, List.pairwise_append, List.mem_append,
    List.mem_singleton] at hsorted
  obtain ⟨⟨_, hmid, hpm⟩, _, hlast⟩ := hsorted
  rw [run_append] at h1
  rw [run_append, run_append] at h2
  obtain ⟨_, hset⟩ := poll_invoked_checkSubProcAfter _ t1 out1 _ h1
  obtain ⟨d1, hd1, hle⟩ := foldl_step_checkSubProcAfter_mono mid
    (run (new pid (some check)) w (pre ++ [Call.poll t1 out1])) (t1 + kCheckSubprocDelay)
    (by rw [run_append]; exact hset)
    (fun u hu => by have := hpm t1 (Or.inr rfl) u hu; linarith) hmid
  obtain ⟨⟨d, hd, hlt⟩, _⟩ := poll_invoked_checkSubProcAfter _ t2 out2 _ h2
  rw [hd1] at hd
  have : d1 = d := Option.some.inj hd
  linarith

theorem poll_rate_limit_witness :
    (callTimes ([Call.poll 0 true] ++ [Call.poll (milliseconds 250) false] ++ [] ++
        [Call.poll (milliseconds 500) false])).Pairwise (· ≤ ·) ∧
      (run scenario () ([Call.poll 0 true] ++ [Call.poll (milliseconds 250) false])).invoked
        ≠ [] ∧
      (run scenario () ([Call.poll 0 true] ++ [Call.poll (milliseconds 250) false] ++ [] ++
        [Call.poll (milliseconds 500) false])).invoked ≠ [] ∧
      (milliseconds 250 + kCheckSubprocDelay < milliseconds 500 ∧
        ∀ (s : ChildProcessSubprocPoll Unit) (t : Time) (hadOutput : Bool) (w1 : Unit),
          (s.poll t hadOutput w1).invoked.length ≤ 1) :=
  ⟨by decide, by decide, by decide,
    poll_rate_limit 42 (constCheck false) () [Call.poll 0 true] []
      (milliseconds 250) (milliseconds 500) false false (by decide) (by decide) (by decide)⟩

/-- C10. The subprocess-check deadline only moves forward: in a sequence of
`poll` and `stop` calls with non-decreasing clock readings made on a freshly
constructed object, if the deadline is set (to `d`) after the calls `pre`,
then after any further calls `post` it is still set, to a value that is at
least `d`. -/
theorem checkSubProcAfter_only_advances (pid : PidType)
    (check : Option (PidType → W → Bool × W)) (w : W) (pre post : List Call)
    (hsorted : (callTimes (pre ++ post)).Pairwise (· ≤ ·)) (d : Time)
    (hd : (run (new pid check) w pre).self.checkSubProcAfter_ = some d) :
    ∃ d1, (run (new pid check) w (pre ++ post)).self.checkSubProcAfter_ = some d1 ∧
      d ≤ d1 := by
  simp only [callTimes_append, List.pairwise_append] at hsorted
  obtain ⟨_, hpost, hpp⟩ := hsorted
  rw [run_append]
  refine foldl_step_checkSubProcAfter_mono post _ d hd (fun u hu => ?_) hpost
  exact foldl_step_checkSubProcAfter_le pre
    { self := new pid check, world := w, invoked := [] } u
    (fun e he => by simp [new] at he) (fun v hv => hpp v hv u hu) d hd

theorem checkSubProcAfter_only_advances_witness :
    (callTimes ([Call.poll 0 true] ++ [Call.stop, Call.poll (milliseconds 250) false])).Pairwise
        (· ≤ ·) ∧
      (run scenario () [Call.poll 0 true]).self.checkSubProcAfter_ = some (milliseconds 200) ∧
      ∃ d1, (run scenario ()
          ([Call.poll 0 true] ++ [Call.stop, Call.poll (milliseconds 250) false])).self.checkSubProcAfter_
            = some d1 ∧ milliseconds 200 ≤ d1 :=
  ⟨by decide, by decide,
    checkSubProcAfter_only_advances 42 (some (constCheck false)) () [Call.poll 0 true]
      [Call.stop, Call.poll (milliseconds 250) false] (by decide) (milliseconds 200) (by decide)⟩

/-- C5. Recent-output memory lasts one second: if an object that is not
stopped is polled with `hadOutput = true` at time `T` and then polled with
`hadOutput = false` at the times `ts`, all before `T + kResetRecentDelay`
(one second), then `hasRecentOutput()` is true after every one of those
polls, that is after the first `n` of them for every `n`. The times need not
even be non-decreasing. -/
theorem recent_output_lasts (s : ChildProcessSubprocPoll W) (hs : s.stopped_ = false)
    (T : Time) (w : W) (ts : List Time) (hts : ∀ t ∈ ts, t < T + kResetRecentDelay)
    (n : Nat) :
    (run s w (Call.poll T true :: pollsAt false (ts.take n))).self.hasRecentOutput = true := by
  obtain ⟨h1, h2⟩ := poll_true_recent s hs T w
  obtain ⟨h3, _⟩ := foldl_step_pollsAt_false_in_window (ts.take n)
    (step { self := s, world := w, invoked := [] } (Call.poll T true))
    (T + kResetRecentDelay) h2
    (fun t ht => le_of_lt (hts t (List.mem_of_mem_take ht)))
  exact h3.trans h1

theorem recent_output_lasts_witness :
    scenario.stopped_ = false ∧
      (∀ t ∈ [milliseconds 250, milliseconds 999], t < 0 + kResetRecentDelay) ∧
      (run scenario () (Call.poll 0 true ::
        pollsAt false ([milliseconds 250, milliseconds 999].take 2))).self.hasRecentOutput
          = true :=
  ⟨rfl, by decide,
    recent_output_lasts scenario rfl 0 () [milliseconds 250, milliseconds 999] (by decide) 2⟩

/-- C6, as the code has it. With no output at all, the recent-output flag
cannot expire early: in a sequence of `poll(false)` calls on a freshly
constructed object, made at the clock readings `t0 :: ts` (in any order),
`hasRecentOutput()` is true after the poll at position `n` whenever that poll
and every poll before it were made not later than `t0 + kResetRecentDelay`
(one second after the first poll); in particular after the first poll. -/
theorem recent_output_no_early_expiry (pid : PidType)
    (check : Option (PidType → W → Bool × W)) (w : W) (t0 : Time) (ts : List Time)
    (n : Nat) (hearly : ∀ u ∈ (t0 :: ts).take (n + 1), u ≤ t0 + kResetRecentDelay) :
    (run (new pid check) w (pollsAt false ((t0 :: ts).take (n + 1)))).self.hasRecentOutput
      = true := by
  simp only [List.take_succ_cons, List.mem_cons, forall_eq_or_imp] at hearly
  obtain ⟨h1, h2⟩ := poll_false_unarmed (new pid check) rfl rfl t0 w
  obtain ⟨h3, _⟩ := foldl_step_pollsAt_false_in_window (ts.take n)
    (step { self := new pid check, world := w, invoked := [] } (Call.poll t0 false))
    (t0 + kResetRecentDelay) h2 hearly.2
  exact h3.trans h1

theorem recent_output_no_early_expiry_witness :
    (∀ u ∈ ((0 : Time) :: [milliseconds 800, milliseconds 1000, milliseconds 1001]).take (2 + 1),
        u ≤ 0 + kResetRecentDelay) ∧
      (run scenario () (pollsAt false
        (((0 : Time) :: [milliseconds 800, milliseconds 1000, milliseconds 1001]).take
          (2 + 1)))).self.hasRecentOutput = true :=
  ⟨by decide,
    recent_output_no_early_expiry 42 (some (constCheck false)) () 0
      [milliseconds 800, milliseconds 1000, milliseconds 1001] 2 (by decide)⟩

/-- C6, as stated, fails: with the clock readings 0, 2 s and 0.5 s (the clock
having stepped back), the second `poll(false)` is past the window armed by
the first and clears the flag, so that after the third poll, made not later
than one second after the first, `hasRecentOutput()` is false. -/
theorem recent_output_no_early_expiry_counterexample :
    ¬ ∀ (n : Nat) (t : Time),
      ((0 : Time) :: [milliseconds 2000, milliseconds 500])[n]? = some t →
      t ≤ 0 + kResetRecentDelay →
      (run scenario () (pollsAt false
        (((0 : Time) :: [milliseconds 2000, milliseconds 500]).take
          (n + 1)))).self.hasRecentOutput = true := by
  intro h
  have h1 := h 2 (milliseconds 500) (by decide) (by decide)
  revert h1
  decide

/-- C7, as the code has it. Concrete scenario, middle step: pid 42 and a
predicate that answers `false`; `poll(true)` at 0 and `poll(false)` at 250 ms.
The first poll already arms the subprocess-check deadline, at 200 ms, and
invokes nothing; the second poll, made after that deadline, invokes the
predicate, so that after it `hasSubprocess()` is false, the deadline is
450 ms, and `hasRecentOutput()` is still true. -/
theorem scenario_second_poll :
    (run scenario () [Call.poll 0 true]).invoked = [] ∧
      (run scenario () [Call.poll 0 true]).self.checkSubProcAfter_ = some (milliseconds 200) ∧
      (run scenario () [Call.poll 0 true, Call.poll (milliseconds 250) false]).invoked
        = [{ pid := 42, answer := false }] ∧
      (run scenario () [Call.poll 0 true, Call.poll (milliseconds 250) false]).self.hasSubprocess
        = false ∧
      (run scenario ()
        [Call.poll 0 true, Call.poll (milliseconds 250) false]).self.checkSubProcAfter_
          = some (milliseconds 450) ∧
      (run scenario ()
        [Call.poll 0 true, Call.poll (milliseconds 250) false]).self.hasRecentOutput = true := by
  decide

/-- C7, as stated, fails: in the scenario the second poll, at 250 ms, does
invoke the predicate, and `hasSubprocess()` is not true after it. -/
theorem scenario_second_poll_counterexample :
    ¬ ((run scenario () [Call.poll 0 true, Call.poll (milliseconds 250) false]).invoked = [] ∧
      (run scenario () [Call.poll 0 true, Call.poll (milliseconds 250) false]).self.hasSubprocess
        = true ∧
      (run scenario ()
        [Call.poll 0 true, Call.poll (milliseconds 250) false]).self.hasRecentOutput = true) := by
  decide

/-- C8. Concrete scenario, final step: pid 42 and a predicate that answers
`false`; after `poll(true)` at 0, `poll(false)` at 250 ms and `poll(false)` at
500 ms, the third poll has invoked the predicate (once, on pid 42),
`hasSubprocess()` is false and the subprocess-check deadline is 700 ms. -/
theorem scenario_third_poll :
    (run scenario () [Call.poll 0 true, Call.poll (milliseconds 250) false,
        Call.poll (milliseconds 500) false]).invoked = [{ pid := 42, answer := false }] ∧
      (run scenario () [Call.poll 0 true, Call.poll (milliseconds 250) false,
        Call.poll (milliseconds 500) false]).self.hasSubprocess = false ∧
      (run scenario () [Call.poll 0 true, Call.poll (milliseconds 250) false,
        Call.poll (milliseconds 500) false]).self.checkSubProcAfter_
          = some (milliseconds 700) := by
  decide

/-- C11. `stopped` is a one-way latch: `poll` (any clock reading, any
`hadOutput`) returns an object with the same `stopped_` as before, so a
stopped object stays stopped and `poll` never stops an object that is not
stopped; and `stop` returns a stopped object, in particular on a stopped
one. -/
theorem stopped_is_latch (s : ChildProcessSubprocPoll W) (t : Time) (hadOutput : Bool)
    (w : W) :
    (s.poll t hadOutput w).self.stopped_ = s.stopped_ ∧ s.stop.stopped_ = true :=
  ⟨poll_stopped s t hadOutput w, rfl⟩

/-- C12. `stop()` changes nothing but the stopped flag: `hasSubprocess()`,
`hasRecentOutput()`, both deadlines, the pid and the predicate are the same
after `stop()` as before it, and the object is stopped. -/
theorem stop_changes_only_stopped (s : ChildProcessSubprocPoll W) :
    s.stop.hasSubprocess = s.hasSubprocess ∧
      s.stop.hasRecentOutput = s.hasRecentOutput ∧
      s.stop.checkSubProcAfter_ = s.checkSubProcAfter_ ∧
      s.stop.resetRecentOutputAfter_ = s.resetRecentOutputAfter_ ∧
      s.stop.pid_ = s.pid_ ∧
      s.stop.subProcCheck_ = s.subProcCheck_ ∧
      s.stop.stopped_ = true :=
  ⟨rfl, rfl, rfl, rfl, rfl, rfl, rfl⟩

/-- C13. `stop()` is idempotent: stopping twice gives the same object as
stopping once. -/
theorem stop_idempotent (s : ChildProcessSubprocPoll W) : s.stop.stop = s.stop :=
  rfl

/-- C14. The recent-output step of `poll` equals its three-case definition:
on an object that is not stopped, the flag and the recent-output deadline
that `poll` leaves are those of `recentOutputStepSpec`. -/
theorem poll_recent_output_step (s : ChildProcessSubprocPoll W) (hs : s.stopped_ = false)
    (now : Time) (hadOutput : Bool) (w : W) :
    ((s.poll now hadOutput w).self.hasRecentOutput,
        (s.poll now hadOutput w).self.resetRecentOutputAfter_) =
      recentOutputStepSpec s.hasRecentOutput s.resetRecentOutputAfter_ now hadOutput := by
  rw [poll_of_not_stopped s hs]
  simp only [hasRecentOutput]
  rw [updateSubprocess_hasRecentOutput, updateSubprocess_resetRecentOutputAfter]
  exact updateRecentOutput_eq_spec s now hadOutput

theorem poll_recent_output_step_witness :
    (run scenario () [Call.poll 0 true]).self.stopped_ = false ∧
      (((run scenario () [Call.poll 0 true]).self.poll (milliseconds 1250) false
            ()).self.hasRecentOutput,
          ((run scenario () [Call.poll 0 true]).self.poll (milliseconds 1250) false
            ()).self.resetRecentOutputAfter_) =
        recentOutputStepSpec (run scenario () [Call.poll 0 true]).self.hasRecentOutput
          (run scenario () [Call.poll 0 true]).self.resetRecentOutputAfter_
          (milliseconds 1250) false :=
  ⟨by decide,
    poll_recent_output_step (run scenario () [Call.poll 0 true]).self (by decide)
      (milliseconds 1250) false ()⟩

/-- C15. The subprocess step of `poll` equals its four-case definition: on
an object that is not stopped and has the predicate `f`, the `hasSubprocess`
flag and the subprocess-check deadline that `poll` leaves are those of
`subprocessStepSpec`, given the recent-output flag after the recent-output
step and the answer of `f` for the stored pid. -/
theorem poll_subprocess_step (s : ChildProcessSubprocPoll W) (hs : s.stopped_ = false)
    (f : PidType → W → Bool × W) (hf : s.subProcCheck_ = some f) (now : Time)
    (hadOutput : Bool) (w : W) :
    ((s.poll now hadOutput w).self.hasSubprocess,
        (s.poll now hadOutput w).self.checkSubProcAfter_) =
      subprocessStepSpec (s.updateRecentOutput now hadOutput).hasRecentOutput
        s.hasSubprocess s.checkSubProcAfter_ now (f s.pid_ w).1 := by
  rw [poll_of_not_stopped s hs]
  have h := updateSubprocess_eq_spec (s.updateRecentOutput now hadOutput) f
    (by rw [updateRecentOutput_subProcCheck]; exact hf) now w
  rw [updateRecentOutput_hasSubprocess, updateRecentOutput_checkSubProcAfter,
    updateRecentOutput_pid] at h
  exact h

theorem poll_subprocess_step_witness :
    (run scenario () [Call.poll 0 true]).self.stopped_ = false ∧
      (run scenario () [Call.poll 0 true]).self.subProcCheck_ = some (constCheck false) ∧
      (((run scenario () [Call.poll 0 true]).self.poll (milliseconds 250) false
            ()).self.hasSubprocess,
          ((run scenario () [Call.poll 0 true]).self.poll (milliseconds 250) false
            ()).self.checkSubProcAfter_) =
        subprocessStepSpec
          ((run scenario () [Call.poll 0 true]).self.updateRecentOutput
            (milliseconds 250) false).hasRecentOutput
          (run scenario () [Call.poll 0 true]).self.hasSubprocess
          (run scenario () [Call.poll 0 true]).self.checkSubProcAfter_ (milliseconds 250)
          (constCheck false (run scenario () [Call.poll 0 true]).self.pid_ ()).1 :=
  ⟨by decide, rfl,
    poll_subprocess_step (run scenario () [Call.poll 0 true]).self (by decide)
      (constCheck false) rfl (milliseconds 250) false ()⟩

/-- C16. The first check is deferred by one interval: on a freshly
constructed object with a predicate, whose first poll is at time `t0`, the
first poll invokes nothing and leaves `hasSubprocess()` true; and, the clock
readings being non-decreasing, a later poll (after the calls `mid`) made at a
time `t` not later than `t0 + kCheckSubprocDelay` (200 ms) invokes nothing
either. -/
theorem first_check_deferred (pid : PidType) (check : PidType → W → Bool × W) (w : W)
    (t0 : Time) (out0 : Bool) (mid : List Call) (t : Time) (out : Bool)
    (hsorted :
      (callTimes ([Call.poll t0 out0] ++ mid ++ [Call.poll t out])).Pairwise (· ≤ ·))
    (ht : t ≤ t0 + kCheckSubprocDelay) :
    (run (new pid (some check)) w [Call.poll t0 out0]).invoked = [] ∧
      (run (new pid (some check)) w [Call.poll t0 out0]).self.hasSubprocess = true ∧
      (run (new pid (some check)) w
        ([Call.poll t0 out0] ++ mid ++ [Call.poll t out])).invoked = [] := by
  have hfirst : run (new pid (some check)) w [Call.poll t0 out0] =
      (new pid (some check)).poll t0 out0 w := rfl
  rw [run_append, run_append, hfirst, poll_new]
  refine ⟨rfl, rfl, ?_⟩
  have htimes : callTimes ([Call.poll t0 out0] ++ mid ++ [Call.poll t out]) =
      t0 :: (callTimes mid ++ [t]) := by
    rw [callTimes_append, callTimes_append]
    rfl
  rw [htimes, List.pairwise_cons, List.pairwise_append] at hsorted
  obtain ⟨hfirst_le, hmid, _, _⟩ := hsorted
  obtain ⟨d1, hd1, hle⟩ := foldl_step_checkSubProcAfter_mono mid
    { self :=
        { new pid (some check) with
          resetRecentOutputAfter_ := some (t0 + kResetRecentDelay)
          checkSubProcAfter_ := some (t0 + kCheckSubprocDelay) }
      world := w
      invoked := [] }
    (t0 + kCheckSubprocDelay) rfl
    (fun u hu => by
      have := hfirst_le u (List.mem_append_left _ hu)
      linarith) hmid
  by_contra hinv
  obtain ⟨⟨d, hd, hlt⟩, _⟩ := poll_invoked_checkSubProcAfter _ t out _ hinv
  rw [hd1] at hd
  have : d1 = d := Option.some.inj hd
  linarith

theorem first_check_deferred_witness :
    (callTimes ([Call.poll 0 true] ++ [Call.poll (milliseconds 100) true] ++
        [Call.poll (milliseconds 200) false])).Pairwise (· ≤ ·) ∧
      milliseconds 200 ≤ 0 + kCheckSubprocDelay ∧
      ((run scenario () [Call.poll 0 true]).invoked = [] ∧
        (run scenario () [Call.poll 0 true]).self.hasSubprocess = true ∧
        (run scenario () ([Call.poll 0 true] ++ [Call.poll (milliseconds 100) true] ++
          [Call.poll (milliseconds 200) false])).invoked = []) :=
  ⟨by decide, by decide,
    first_check_deferred 42 (constCheck false) () 0 true [Call.poll (milliseconds 100) true]
      (milliseconds 200) false (by decide) (by decide)⟩

/-- C17. The recent-output flag does expire: if an object that is not
stopped is polled with `hadOutput = true` at time `T` and then polled with
`hadOutput = false`, then after the first of those polls whose time `t` is
strictly greater than `T + kResetRecentDelay` (the polls before it, at the
times `before`, being not later than that), `hasRecentOutput()` is false and
the recent-output deadline is `t + kResetRecentDelay`. -/
theorem recent_output_expires (s : ChildProcessSubprocPoll W) (hs : s.stopped_ = false)
    (T : Time) (w : W) (before : List Time) (t : Time)
    (hbefore : ∀ u ∈ before, u ≤ T + kResetRecentDelay) (ht : T + kResetRecentDelay < t) :
    (run s w (Call.poll T true :: pollsAt false (before ++ [t]))).self.hasRecentOutput
        = false ∧
      (run s w (Call.poll T true ::
        pollsAt false (before ++ [t]))).self.resetRecentOutputAfter_
          = some (t + kResetRecentDelay) := by
  obtain ⟨_, h2⟩ := poll_true_recent s hs T w
  have h3 : (step { self := s, world := w, invoked := [] } (Call.poll T true)).self.stopped_
      = false := (poll_stopped s T true w).trans hs
  obtain ⟨_, h5⟩ := foldl_step_pollsAt_false_in_window before
    (step { self := s, world := w, invoked := [] } (Call.poll T true))
    (T + kResetRecentDelay) h2 hbefore
  have h6 := (foldl_step_pollsAt_stopped false before
    (step { self := s, world := w, invoked := [] } (Call.poll T true))).trans h3
  have hrun : run s w (Call.poll T true :: pollsAt false (before ++ [t])) =
      ((pollsAt false before).foldl step
        (step { self := s, world := w, invoked := [] } (Call.poll T true))).self.poll t false
        ((pollsAt false before).foldl step
          (step { self := s, world := w, invoked := [] } (Call.poll T true))).world := by
    simp [run, pollsAt, List.foldl_append, step]
  rw [hrun]
  exact poll_false_expired _ h6 (T + kResetRecentDelay) h5 t ht _

theorem recent_output_expires_witness :
    scenario.stopped_ = false ∧
      (∀ u ∈ [milliseconds 250, milliseconds 1000], u ≤ 0 + kResetRecentDelay) ∧
      0 + kResetRecentDelay < milliseconds 1001 ∧
      ((run scenario () (Call.poll 0 true ::
          pollsAt false ([milliseconds 250, milliseconds 1000] ++
            [milliseconds 1001]))).self.hasRecentOutput = false ∧
        (run scenario () (Call.poll 0 true ::
          pollsAt false ([milliseconds 250, milliseconds 1000] ++
            [milliseconds 1001]))).self.resetRecentOutputAfter_
              = some (milliseconds 1001 + kResetRecentDelay)) :=
  ⟨rfl, by decide, by decide,
    recent_output_expires scenario rfl 0 () [milliseconds 250, milliseconds 1000]
      (milliseconds 1001) (by decide) (by decide)⟩

/-- C18. Only output can set the recent-output flag: on an object that is
not stopped `poll(true)` returns an object whose flag is true; on an object
whose flag is false `poll(false)` returns an object whose flag is false;
hence, starting from a false flag, through any calls none of which is a
`poll(true)`, the flag stays false, `hasSubprocess()` stays as it was and the
predicate is not invoked at all. -/
theorem only_output_sets_recent (s : ChildProcessSubprocPoll W) (t : Time) (w : W) :
    (s.stopped_ = false → (s.poll t true w).self.hasRecentOutput = true) ∧
      (s.hasRecentOutput = false → (s.poll t false w).self.hasRecentOutput = false) ∧
      (s.hasRecentOutput = false → ∀ calls : List Call, (∀ u, Call.poll u true ∉ calls) →
        (run s w calls).self.hasRecentOutput = false ∧
          (run s w calls).self.hasSubprocess = s.hasSubprocess ∧
          invocationLog { self := s, world := w, invoked := [] } calls = []) :=
  ⟨fun hs => (poll_true_recent s hs t w).1,
    fun hr => (poll_false_of_not_recent s hr t w).1,
    fun hr calls hno =>
      foldl_step_no_output calls { self := s, world := w, invoked := [] } hr hno⟩

theorem only_output_sets_recent_witness :
    (run scenario () [Call.poll 0 false, Call.poll (milliseconds 1500) false]).self.stopped_
        = false ∧
      (run scenario ()
        [Call.poll 0 false, Call.poll (milliseconds 1500) false]).self.hasRecentOutput
          = false ∧
      ((run scenario () [Call.poll 0 false, Call.poll (milliseconds 1500) false]).self.poll
        (milliseconds 2000) true ()).self.hasRecentOutput = true ∧
      ((run scenario () [Call.poll 0 false, Call.poll (milliseconds 1500) false]).self.poll
        (milliseconds 2000) false ()).self.hasRecentOutput = false ∧
      ((run (run scenario ()
            [Call.poll 0 false, Call.poll (milliseconds 1500) false]).self ()
          [Call.poll (milliseconds 2000) false, Call.poll (milliseconds 4000) false]
            ).self.hasRecentOutput = false ∧
        (run (run scenario ()
            [Call.poll 0 false, Call.poll (milliseconds 1500) false]).self ()
          [Call.poll (milliseconds 2000) false, Call.poll (milliseconds 4000) false]
            ).self.hasSubprocess =
          (run scenario ()
            [Call.poll 0 false, Call.poll (milliseconds 1500) false]).self.hasSubprocess ∧
        invocationLog
          { self := (run scenario ()
              [Call.poll 0 false, Call.poll (milliseconds 1500) false]).self
            world := ()
            invoked := [] }
          [Call.poll (milliseconds 2000) false, Call.poll (milliseconds 4000) false] = []) :=
  ⟨by decide, by decide,
    (only_output_sets_recent
      (run scenario () [Call.poll 0 false, Call.poll (milliseconds 1500) false]).self
      (milliseconds 2000) ()).1 (by decide),
    (only_output_sets_recent
      (run scenario () [Call.poll 0 false, Call.poll (milliseconds 1500) false]).self
      (milliseconds 2000) ()).2.1 (by decide),
    (only_output_sets_recent
      (run scenario () [Call.poll 0 false, Call.poll (milliseconds 1500) false]).self
      (milliseconds 2000) ()).2.2 (by decide)
      [Call.poll (milliseconds 2000) false, Call.poll (milliseconds 4000) false]
      (fun u hu => by simp at hu)⟩

/-- C19. `hasSubprocess()` is false only on the word of the predicate: after
any sequence of `poll` and `stop` calls on a freshly constructed object,
`hasSubprocess()` is true if no call invoked the predicate, and otherwise is
the answer of the most recent invocation; and every invocation was made on
the stored pid. -/
theorem hasSubprocess_is_last_answer (pid : PidType)
    (check : Option (PidType → W → Bool × W)) (w : W) (calls : List Call) :
    (run (new pid check) w calls).self.hasSubprocess =
        lastAnswer true
          (invocationLog { self := new pid check, world := w, invoked := [] } calls) ∧
      ∀ i ∈ invocationLog { self := new pid check, world := w, invoked := [] } calls,
        i.pid = pid :=
  foldl_step_lastAnswer calls { self := new pid check, world := w, invoked := [] }

/-- C20. The recent-output fact does not depend on the subprocess side: two
freshly constructed objects, whatever their pids and predicates (present or
absent) and the worlds the predicates see, have the same `hasRecentOutput()`
and the same recent-output deadline after the same sequence of `poll` and
`stop` calls, hence after every step of it. -/
theorem recent_output_independent {W1 W2 : Type} (pid1 pid2 : PidType)
    (check1 : Option (PidType → W1 → Bool × W1))
    (check2 : Option (PidType → W2 → Bool × W2)) (w1 : W1) (w2 : W2)
    (calls : List Call) :
    (run (new pid1 check1) w1 calls).self.hasRecentOutput =
        (run (new pid2 check2) w2 calls).self.hasRecentOutput ∧
      (run (new pid1 check1) w1 calls).self.resetRecentOutputAfter_ =
        (run (new pid2 check2) w2 calls).self.resetRecentOutputAfter_ :=
  foldl_step_recent_congr calls
    { self := new pid1 check1, world := w1, invoked := [] }
    { self := new pid2 check2, world := w2, invoked := [] } rfl rfl rfl

end Properties

end rstudio.core.system
